import Mathlib

/-!
node-serial-obd: the frame reader, the PID codec and the poll scheduler

A shallow embedding of `lib/obd.js`.

* A JavaScript string is a list of characters (`Str`), one `Char` per UTF-16
  code unit; the adapter's traffic and the PID table are ASCII.
* `undefined` is `none`: `getPIDByName` returns `Option Str`, an array read
  past the end is `none`, an unset property of a reply is `none`.
* The PID table `PIDS` (`lib/obdInfo.js`) is a parameter of every function
  that reads it. The value type `V` of its `convertToUseful` rules is a
  parameter too.
* The serial sink is the list of strings handed to `serial.write`; the event
  emitter is the list of replies handed to `emit('dataReceived', _)`.
  `console.log` is not modelled.
-/

namespace OBD

/-- A JavaScript string: its sequence of code units. -/
abbrev Str := List Char

/-- The line terminator `'\r\n'`. -/
def CRLF : Str := ['\r', '\n']

/-! ## String primitives of the JavaScript runtime used by `obd.js` -/

/-- `String.prototype.lastIndexOf(pat)` as an option: the largest index at
which `pat` occurs in the string. -/
def lastIndexOf? (pat : Str) : Str → Option Nat
  | [] => if pat = [] then some 0 else none
  | c :: cs =>
    match lastIndexOf? pat cs with
    | some i => some (i + 1)
    | none => if pat.isPrefixOf (c :: cs) then some 0 else none

/-- `s.lastIndexOf(pat)`: the index of the last occurrence, `-1` when there
is none. -/
def lastIndexOf (s pat : Str) : Int :=
  match lastIndexOf? pat s with
  | some i => (i : Int)
  | none => -1

/-- `s.substr(start, length)`: a negative `start` counts from the end, the
length is clamped to what is left of the string. -/
def substr (s : Str) (start length : Int) : Str :=
  let n : Int := s.length
  let st : Int := if start < 0 then max (n + start) 0 else min start n
  let ln : Int := min (max length 0) (n - st)
  (s.drop st.toNat).take ln.toNat

/-- The pieces of a string around a one-character separator: the piece before
the first separator, and the pieces after it. -/
def splitAux (sep : Char) : Str → Str × List Str
  | [] => ([], [])
  | c :: cs =>
    let r := splitAux sep cs
    if c = sep then ([], r.1 :: r.2) else (c :: r.1, r.2)

/-- `s.split(sep)` for a one-character separator; never empty. -/
def split (s : Str) (sep : Char) : List Str :=
  (splitAux sep s).1 :: (splitAux sep s).2

/-- `s.replace(/ /g, '')`: every space removed. -/
def removeSpaces (s : Str) : Str :=
  s.filter (fun c => c != ' ')

/-- `x + '\r'` for `x` a string or `undefined`: `undefined` is converted to
the text `undefined`. -/
def toStr : Option Str → Str
  | some s => s
  | none => "undefined".toList

/-! ## The PID table and the replies -/

/-- One entry of the PID table `PIDS`. `convertToUseful` receives the
arguments of the call in order, an argument read past the end of the byte
array being `undefined`. -/
structure PidDefinition (V : Type) where
  name : Str
  mode : Str
  pid : Option Str
  bytes : Nat
  convertToUseful : List (Option Str) → V

/-- What `reply.value` is assigned: the sentinel text itself, or the result
of a `convertToUseful` rule. -/
inductive ReplyValue (V : Type) where
  | text (s : Str)
  | converted (v : V)
deriving DecidableEq

/-- The reply object of `parseOBDCommand`; a property never assigned, or
assigned `undefined`, is `none`. -/
structure Reply (V : Type) where
  value : Option (ReplyValue V)
  name : Option Str
  mode : Option Str
  pid : Option Str
deriving DecidableEq

/-! ## Command encoder and response decoder -/

/-- The request string of one entry: `mode + pid`, or `mode` alone. -/
def PidDefinition.request {V : Type} (e : PidDefinition V) : Str :=
  match e.pid with
  | some p => e.mode ++ p
  | none => e.mode

/-- `getPIDByName(name)`: `mode + pid` of the first entry of that name, its
`mode` alone when it has no `pid`, `undefined` when no entry has the name. -/
def getPIDByName {V : Type} (PIDS : List (PidDefinition V)) (name : Str) : Option Str :=
  match PIDS with
  | [] => none
  | e :: rest =>
    if e.name = name then
      match e.pid with
      | some p => some (e.mode ++ p)
      | none => some e.mode
    else getPIDByName rest name

/-- The `valueArray` built by the loop of `parseOBDCommand`: for
`byteNumber = 0, 2, 4, ...` below the length, `hexString.substr(byteNumber, 2)`. -/
def valueArray (hexString : Str) : List Str :=
  (List.range ((hexString.length + 1) / 2)).map
    (fun (k : Nat) => substr hexString (2 * (k : Int)) 2)

/-- The body of the `switch (numberOfBytes)` of `parseOBDCommand`: the value
assigned to `reply.value`, none when no case matches. -/
def convertedValue {V : Type} (e : PidDefinition V) (va : List Str) : Option (ReplyValue V) :=
  match e.bytes with
  | 1 => some (.converted (e.convertToUseful [va[2]?]))
  | 2 => some (.converted (e.convertToUseful [va[2]?, va[3]?]))
  | 4 => some (.converted (e.convertToUseful [va[2]?, va[3]?, va[4]?, va[5]?]))
  | 8 => some (.converted (e.convertToUseful
      [va[2]?, va[3]?, va[4]?, va[5]?, va[6]?, va[7]?, va[8]?, va[9]?]))
  | _ => none

/-- The `for` loop over `PIDS` of `parseOBDCommand`: the first entry with
`PIDS[i].pid == reply.pid` sets `name` and `value`, and the loop stops. -/
def lookupLoop {V : Type} (PIDS : List (PidDefinition V)) (va : List Str) (reply : Reply V) :
    Reply V :=
  match PIDS with
  | [] => reply
  | e :: rest =>
    if e.pid = reply.pid then
      { reply with name := some e.name, value := convertedValue e va }
    else lookupLoop rest va reply

/-- `parseOBDCommand(hexString)`. -/
def parseOBDCommand {V : Type} (PIDS : List (PidDefinition V)) (hexString : Str) : Reply V :=
  if hexString = "NO DATA".toList ∨ hexString = "OK".toList then
    { value := some (.text hexString), name := none, mode := none, pid := none }
  else
    let va := valueArray (removeSpaces hexString)
    lookupLoop PIDS va { value := none, name := none, mode := va[0]?, pid := va[1]? }

/-! ## Frame reader: the `serial.on("data", ...)` handler -/

/-- The state the handler reads and writes: the buffer `self.receivedData`,
and the replies emitted so far as `dataReceived` events. -/
structure Reader (V : Type) where
  receivedData : Str
  emitted : List (Reply V)

/-- The argument the handler passes to `parseOBDCommand` for one segment
`forString`, none when the segment holds no `'\r\n'` (the `Error in
parsing.` branch). `currentLength` is `currentString.length`. -/
def framePayload (forString : Str) (currentLength : Int) : Option Str :=
  let indexOfEnd := lastIndexOf forString CRLF
  if indexOfEnd > -1 then
    let forString1 := substr forString 0 indexOfEnd
    let indexOfStart := lastIndexOf forString1 CRLF
    some (substr forString1 (indexOfStart + 2) currentLength)
  else none

/-- One pass of the body of the `for` loop over `arrayOfCommands`. -/
def processCommand {V : Type} (PIDS : List (PidDefinition V)) (currentLength : Int)
    (r : Reader V) (forString : Str) : Reader V :=
  if forString = [] then r
  else
    match framePayload forString currentLength with
    | some payload =>
      { receivedData := [], emitted := r.emitted ++ [parseOBDCommand PIDS payload] }
    | none => r

/-- The `data` handler: one incoming chunk `data`. -/
def onData {V : Type} (PIDS : List (PidDefinition V)) (r : Reader V) (data : Str) : Reader V :=
  let currentString := r.receivedData ++ data
  let arrayOfCommands := split currentString '>'
  if arrayOfCommands.length < 2 then
    { r with receivedData := arrayOfCommands.headD [] }
  else
    arrayOfCommands.foldl (processCommand PIDS (currentString.length : Int)) r

/-- The handler run on a sequence of chunks, in order. -/
def feed {V : Type} (PIDS : List (PidDefinition V)) (r : Reader V) (chunks : List Str) :
    Reader V :=
  chunks.foldl (onData PIDS) r

/-- A new `OBDReader`: empty buffer, nothing emitted. -/
def Reader.init {V : Type} : Reader V := { receivedData := [], emitted := [] }

/-! ## Writing to the serial sink -/

/-- `write(message)`: the string handed to `serial.write`, `message + '\r'`. -/
def write (message : Option Str) : Str :=
  toStr message ++ ['\r']

/-- `requestValueByName(name)`: the writes it performs on the sink. -/
def requestValueByName {V : Type} (PIDS : List (PidDefinition V)) (name : Str) : List Str :=
  [write (getPIDByName PIDS name)]

/-! ## Poll scheduler -/

/-- `Array.prototype.indexOf(x)`: the index of the first element strictly
equal to `x`, `-1` when there is none. -/
def arrayIndexOf {α : Type} [DecidableEq α] : List α → α → Int
  | [], _ => -1
  | y :: ys, x =>
    if y = x then 0
    else
      let i := arrayIndexOf ys x
      if i = -1 then -1 else i + 1

/-- `Array.prototype.splice(start, 1)`: a negative `start` counts back from
the length; the element at the resulting index, if there is one, is removed. -/
def splice1 {α : Type} (xs : List α) (start : Int) : List α :=
  let n : Int := xs.length
  let st : Int := if start < 0 then max (n + start) 0 else min start n
  xs.eraseIdx st.toNat

/-- `addPoller(name)` on the array `activePollers`. -/
def addPoller {V : Type} (PIDS : List (PidDefinition V)) (name : Str)
    (activePollers : List (Option Str)) : List (Option Str) :=
  let stringToSend := getPIDByName PIDS name
  activePollers ++ [stringToSend]

/-- `removePoller(name)` on the array `activePollers`. -/
def removePoller {V : Type} (PIDS : List (PidDefinition V)) (name : Str)
    (activePollers : List (Option Str)) : List (Option Str) :=
  let stringToDelete := getPIDByName PIDS name
  let index := arrayIndexOf activePollers stringToDelete
  splice1 activePollers index

/-- `removeAllPollers()` on the array `activePollers`. -/
def removeAllPollers (_activePollers : List (Option Str)) : List (Option Str) :=
  []

/-- `writePollers()`: the writes of one poll tick, in order. -/
def writePollers (activePollers : List (Option Str)) : List Str :=
  activePollers.map write

/-- The module state of the scheduler together with the runtime's timers:
`activePollers`, the variable `pollerInterval` (none while `undefined`), the
handles of the interval timers still live, each of which calls
`writePollers` at every period, and the next fresh handle. -/
structure Scheduler where
  activePollers : List (Option Str)
  pollerInterval : Option Nat
  liveTimers : List Nat
  nextHandle : Nat
deriving DecidableEq

/-- The scheduler when the module is loaded. -/
def Scheduler.init : Scheduler :=
  { activePollers := [], pollerInterval := none, liveTimers := [], nextHandle := 0 }

/-- `startPolling()`: `setInterval` creates a fresh live timer, and its
handle is assigned to `pollerInterval`. -/
def startPolling (s : Scheduler) : Scheduler :=
  { s with
    pollerInterval := some s.nextHandle
    liveTimers := s.liveTimers ++ [s.nextHandle]
    nextHandle := s.nextHandle + 1 }

/-- `stopPolling()`: `clearTimeout(pollerInterval)` cancels the timer of that
handle; `clearTimeout(undefined)` does nothing. -/
def stopPolling (s : Scheduler) : Scheduler :=
  match s.pollerInterval with
  | some h => { s with liveTimers := s.liveTimers.filter (fun t => t != h) }
  | none => s

/-- The calls a client makes on the scheduler. -/
inductive Call where
  | startPolling
  | stopPolling
  | addPoller (name : Str)
  | removePoller (name : Str)
  | removeAllPollers
deriving DecidableEq

/-- One call applied to the scheduler. -/
def Scheduler.step {V : Type} (PIDS : List (PidDefinition V)) (s : Scheduler) : Call → Scheduler
  | .startPolling => OBD.startPolling s
  | .stopPolling => OBD.stopPolling s
  | .addPoller name => { s with activePollers := OBD.addPoller PIDS name s.activePollers }
  | .removePoller name => { s with activePollers := OBD.removePoller PIDS name s.activePollers }
  | .removeAllPollers => { s with activePollers := OBD.removeAllPollers s.activePollers }

/-- A sequence of calls applied in order. -/
def Scheduler.run {V : Type} (PIDS : List (PidDefinition V)) (s : Scheduler) (calls : List Call) :
    Scheduler :=
  calls.foldl (Scheduler.step PIDS) s

/-- The writes on the sink when one period elapses: every live timer fires
once and calls `writePollers`. -/
def Scheduler.period (s : Scheduler) : List Str :=
  s.liveTimers.flatMap (fun _ => writePollers s.activePollers)

/-! ## A sample PID table -/

/-- Modelled from the spec: the value of one hexadecimal digit (`lib/obdInfo.js`,
which holds the decode rules, is not among the sources). -/
def hexDigit (c : Char) : Option Nat :=
  if '0' ≤ c ∧ c ≤ '9' then some (c.toNat - '0'.toNat)
  else if 'A' ≤ c ∧ c ≤ 'F' then some (c.toNat - 'A'.toNat + 10)
  else if 'a' ≤ c ∧ c ≤ 'f' then some (c.toNat - 'a'.toNat + 10)
  else none

/-- Modelled from the spec: `integer(byte, base16)` of a string of hexadecimal
digits, none (not a number) for any other text (`lib/obdInfo.js` is not among
the sources). -/
def hexValue (s : Str) : Option Nat :=
  s.foldl (fun acc c => acc.bind (fun a => (hexDigit c).map (fun d => 16 * a + d))) (some 0)

/-- Modelled from the spec: a decode rule reading its raw bytes as one
big-endian hexadecimal number, not a number when a byte is `undefined`
(`lib/obdInfo.js` is not among the sources). -/
def convertHex (args : List (Option Str)) : Option Nat :=
  if args.all Option.isSome then hexValue (args.map toStr).flatten else none

/-- Modelled from the spec: the vehicle speed sensor entry, `mode=01`,
`pid=0D`, one byte (`lib/obdInfo.js` is not among the sources). -/
def vssEntry : PidDefinition (Option Nat) :=
  { name := "vss".toList, mode := "01".toList, pid := some "0D".toList, bytes := 1,
    convertToUseful := convertHex }

/-- Modelled from the spec: a PID table (`lib/obdInfo.js` is not among the
sources) holding the vehicle speed sensor (`mode=01`, `pid=0D`, 1 byte), two
entries of different modes with the same `pid`, a two-byte entry and a
mode-only entry without `pid`. -/
def samplePIDS : List (PidDefinition (Option Nat)) :=
  [ { name := "pidsupp0".toList, mode := "01".toList, pid := some "00".toList, bytes := 4,
      convertToUseful := convertHex },
    { name := "runtm".toList, mode := "01".toList, pid := some "1F".toList, bytes := 2,
      convertToUseful := convertHex },
    vssEntry,
    { name := "cleardtc".toList, mode := "04".toList, pid := none, bytes := 0,
      convertToUseful := convertHex },
    { name := "vinsupp0".toList, mode := "09".toList, pid := some "00".toList, bytes := 4,
      convertToUseful := convertHex } ]

/-! # Theorems -/

/-! ## Lemmas on the string primitives -/

theorem substr_nat (s : Str) (n m : Nat) :
    substr s (n : Int) (m : Int) = (s.drop n).take m := by
  unfold substr
  simp only
  have h0 : ¬ ((n : Int) < 0) := by omega
  rw [if_neg h0]
  by_cases h : n ≤ s.length
  · have h1 : (min (n : Int) (s.length : Int)).toNat = n := by omega
    rw [h1]
    have h2 : (min (max (m : Int) 0) ((s.length : Int) - min (n : Int) (s.length : Int))).toNat
        = min m (s.length - n) := by omega
    rw [h2, List.take_eq_take]
    simp [List.length_drop]
  · have h1 : (min (n : Int) (s.length : Int)).toNat = s.length := by omega
    rw [h1, List.drop_length, List.drop_eq_nil_of_le (by omega)]
    simp

theorem valueArray_eq (s : Str) :
    valueArray s = (List.range ((s.length + 1) / 2)).map (fun k => (s.drop (2 * k)).take 2) := by
  unfold valueArray
  apply List.map_congr_left
  intro k _
  have := substr_nat s (2 * k) 2
  simpa using this

theorem valueArray_cons_cons (a b : Char) (s : Str) :
    valueArray (a :: b :: s) = [a, b] :: valueArray s := by
  rw [valueArray_eq, valueArray_eq]
  have hlen : ((a :: b :: s).length + 1) / 2 = (s.length + 1) / 2 + 1 := by
    simp only [List.length_cons]; omega
  rw [hlen, List.range_succ_eq_map, List.map_cons, List.map_map]
  congr 1

theorem removeSpaces_append (a b : Str) :
    removeSpaces (a ++ b) = removeSpaces a ++ removeSpaces b := by
  simp [removeSpaces]

theorem removeSpaces_of_not_mem (a : Str) (h : ' ' ∉ a) : removeSpaces a = a := by
  unfold removeSpaces
  rw [List.filter_eq_self]
  intro c hc
  have : c ≠ ' ' := fun hEq => h (hEq ▸ hc)
  simpa using this

/-! ## Lemmas on the encoder and the decoder -/

theorem getPIDByName_of_nodup {V : Type} (PIDS : List (PidDefinition V)) (e : PidDefinition V)
    (hmem : e ∈ PIDS) (hnames : (PIDS.map (fun x => x.name)).Nodup) :
    getPIDByName PIDS e.name = some e.request := by
  induction PIDS with
  | nil => cases hmem
  | cons x rest ih =>
    rw [List.map_cons, List.nodup_cons] at hnames
    rcases List.mem_cons.mp hmem with rfl | hrest
    · unfold getPIDByName PidDefinition.request
      rw [if_pos rfl]
      cases e.pid <;> rfl
    · have hne : x.name ≠ e.name := by
        intro hEq
        exact hnames.1 (hEq ▸ List.mem_map_of_mem (fun x => x.name) hrest)
      unfold getPIDByName
      rw [if_neg hne]
      exact ih hrest hnames.2

theorem lookupLoop_of_no_match {V : Type} (PIDS : List (PidDefinition V)) (va : List Str)
    (reply : Reply V) (h : ∀ x ∈ PIDS, x.pid ≠ reply.pid) :
    lookupLoop PIDS va reply = reply := by
  induction PIDS with
  | nil => rfl
  | cons x rest ih =>
    unfold lookupLoop
    rw [if_neg (h x (List.mem_cons_self _ _))]
    exact ih (fun y hy => h y (List.mem_cons_of_mem _ hy))

theorem lookupLoop_of_first {V : Type} (pre post : List (PidDefinition V)) (e : PidDefinition V)
    (va : List Str) (reply : Reply V) (hpre : ∀ x ∈ pre, x.pid ≠ reply.pid)
    (he : e.pid = reply.pid) :
    lookupLoop (pre ++ e :: post) va reply
      = { reply with name := some e.name, value := convertedValue e va } := by
  induction pre with
  | nil =>
    simp only [List.nil_append]
    unfold lookupLoop
    rw [if_pos he]
  | cons x rest ih =>
    simp only [List.cons_append]
    unfold lookupLoop
    rw [if_neg (hpre x (List.mem_cons_self _ _))]
    exact ih (fun y hy => hpre y (List.mem_cons_of_mem _ hy))

theorem split_at_index {α : Type} (l : List α) (i : Nat) (e : α) (h : l[i]? = some e) :
    l = l.take i ++ e :: l.drop (i + 1) := by
  induction l generalizing i with
  | nil => simp at h
  | cons x rest ih =>
    cases i with
    | zero => simp at h; simp [h]
    | succ j =>
      simp only [List.getElem?_cons_succ] at h
      simp only [List.take_succ_cons, List.drop_succ_cons, List.cons_append]
      rw [← ih j h]

theorem valueArray_getElem?_one (m p rest : Str) (hm : m.length = 2) (hp : p.length = 2) :
    (valueArray (m ++ p ++ rest))[0]? = some m ∧ (valueArray (m ++ p ++ rest))[1]? = some p := by
  match m, hm with
  | [m1, m2], _ =>
    match p, hp with
    | [p1, p2], _ =>
      simp [valueArray_cons_cons]

theorem parseOBDCommand_of_first {V : Type} (PIDS : List (PidDefinition V)) (e : PidDefinition V)
    (i : Nat) (m p rest : Str) (hi : PIDS[i]? = some e) (hpid : e.pid = some p)
    (hm : m.length = 2) (hp : p.length = 2) (hmSp : ' ' ∉ m) (hpSp : ' ' ∉ p)
    (hfirst : ∀ x ∈ PIDS.take i, x.pid ≠ some p) :
    parseOBDCommand PIDS (m ++ p ++ rest)
      = { value := convertedValue e (valueArray (m ++ p ++ removeSpaces rest)),
          name := some e.name, mode := some m, pid := some p } := by
  have hsent : ¬ (m ++ p ++ rest = "NO DATA".toList ∨ m ++ p ++ rest = "OK".toList) := by
    match m, hm with
    | [m1, m2], _ =>
      match p, hp with
      | [p1, p2], _ =>
        intro h
        rcases h with h | h
        · have h3 : p1 = ' ' := by
            have := congrArg (fun l => l[2]?) h
            simpa using this
          exact hpSp (by simp [h3])
        · have := congrArg List.length h
          simp at this
  unfold parseOBDCommand
  rw [if_neg hsent]
  simp only
  rw [removeSpaces_append, removeSpaces_append, removeSpaces_of_not_mem m hmSp,
    removeSpaces_of_not_mem p hpSp]
  obtain ⟨h0, h1⟩ := valueArray_getElem?_one m p (removeSpaces rest) hm hp
  rw [h0, h1]
  conv_lhs => rw [split_at_index PIDS i e hi]
  rw [lookupLoop_of_first _ _ e _ _ hfirst hpid]

/-- C1 (amended). Encode/decode round trip: in a table with unique names, for
an entry `e` with a pid, a two-character `mode` and `pid` without spaces, a
byte count in {1,2,4,8}, and no entry before it in the table with the same
pid, `getPIDByName e.name` is `e.mode ++ e.pid`, and `parseOBDCommand` on
`e.mode ++ e.pid` followed by `e.bytes` two-character data bytes returns a
reply named `e.name`. -/
theorem roundTrip_first_pid {V : Type} (PIDS : List (PidDefinition V)) (e : PidDefinition V)
    (i : Nat) (p : Str) (dataBytes : List Str)
    (hnames : (PIDS.map (fun x => x.name)).Nodup)
    (hi : PIDS[i]? = some e)
    (hpid : e.pid = some p)
    (_hbytes : e.bytes = 1 ∨ e.bytes = 2 ∨ e.bytes = 4 ∨ e.bytes = 8)
    (hmode : e.mode.length = 2 ∧ ' ' ∉ e.mode)
    (hp : p.length = 2 ∧ ' ' ∉ p)
    (hfirst : ∀ x ∈ PIDS.take i, x.pid ≠ some p)
    (_hdata : dataBytes.length = e.bytes ∧ ∀ b ∈ dataBytes, b.length = 2) :
    getPIDByName PIDS e.name = some (e.mode ++ p) ∧
      (parseOBDCommand PIDS (e.mode ++ p ++ dataBytes.flatten)).name = some e.name := by
  constructor
  · rw [getPIDByName_of_nodup PIDS e (List.getElem?_mem hi) hnames]
    simp [PidDefinition.request, hpid]
  · rw [parseOBDCommand_of_first PIDS e i e.mode p _ hi hpid hmode.1 hp.1 hmode.2 hp.2 hfirst]

theorem roundTrip_first_pid_witness :
    getPIDByName samplePIDS "vss".toList = some "010D".toList ∧
      (parseOBDCommand samplePIDS "010D32".toList).name = some "vss".toList :=
  roundTrip_first_pid samplePIDS vssEntry 2 "0D".toList ["32".toList]
    (by decide) (by rfl) (by rfl) (by decide) (by decide) (by decide) (by decide) (by decide)

/-- C1 (as stated) fails: the sample table has unique names, its entry
`vinsupp0` has a pid and byte count 4, and the decoder names the reply to
`09` `00` and four data bytes `pidsupp0`, the first entry with pid `00`. -/
theorem roundTrip_counterexample :
    (samplePIDS.map (fun x => x.name)).Nodup ∧
      (samplePIDS[4]?.map (fun e => (e.name, e.mode, e.pid, e.bytes)))
        = some ("vinsupp0".toList, "09".toList, some "00".toList, 4) ∧
      getPIDByName samplePIDS "vinsupp0".toList = some ("09".toList ++ "00".toList) ∧
      (parseOBDCommand samplePIDS
          ("09".toList ++ "00".toList ++ ["AA".toList, "BB".toList, "CC".toList, "DD".toList].flatten)).name
        = some "pidsupp0".toList ∧
      (parseOBDCommand samplePIDS
          ("09".toList ++ "00".toList ++ ["AA".toList, "BB".toList, "CC".toList, "DD".toList].flatten)).name
        ≠ some "vinsupp0".toList := by
  decide

/-- C6 (amended). Unknown reply is partial: when the hex text is not a
sentinel, has a second byte `Byte[1]`, and no table entry has `Byte[1]` as its
pid, `parseOBDCommand` returns a reply with mode `Byte[0]`, pid `Byte[1]`, and
name and value unset. -/
theorem unknown_pid_reply_partial {V : Type} (PIDS : List (PidDefinition V))
    (hexString byte0 byte1 : Str)
    (hsent : hexString ≠ "NO DATA".toList ∧ hexString ≠ "OK".toList)
    (h0 : (valueArray (removeSpaces hexString))[0]? = some byte0)
    (h1 : (valueArray (removeSpaces hexString))[1]? = some byte1)
    (hno : ∀ e ∈ PIDS, e.pid ≠ some byte1) :
    parseOBDCommand PIDS hexString
      = { value := none, name := none, mode := some byte0, pid := some byte1 } := by
  unfold parseOBDCommand
  rw [if_neg (by rintro (h | h); exact hsent.1 h; exact hsent.2 h)]
  simp only [h0, h1]
  exact lookupLoop_of_no_match PIDS _ _ hno

theorem unknown_pid_reply_partial_witness :
    parseOBDCommand samplePIDS "41 0C 1A 2B".toList
      = { value := none, name := none, mode := some "41".toList, pid := some "0C".toList } :=
  unknown_pid_reply_partial samplePIDS "41 0C 1A 2B".toList "41".toList "0C".toList
    (by decide) (by decide) (by decide) (by decide)

/-- C6 (as stated) fails: in the reply `41 0D 32` the pair (`41`, `0D`) is the
(mode, pid) of no entry of the sample table, yet the reply is named `vss` and
carries a value, because the entry is looked up by pid alone. -/
theorem unknown_pair_counterexample :
    ("410D32".toList ≠ "NO DATA".toList ∧ "410D32".toList ≠ "OK".toList) ∧
      (valueArray (removeSpaces "410D32".toList))[0]? = some "41".toList ∧
      (valueArray (removeSpaces "410D32".toList))[1]? = some "0D".toList ∧
      (∀ e ∈ samplePIDS, ¬ (e.mode = "41".toList ∧ e.pid = some "0D".toList)) ∧
      (parseOBDCommand samplePIDS "410D32".toList).name = some "vss".toList ∧
      (parseOBDCommand samplePIDS "410D32".toList).value = some (.converted (some 50)) := by
  decide

/-! ## Lemmas on the poller array -/

theorem arrayIndexOf_of_not_mem {α : Type} [DecidableEq α] (xs : List α) (x : α) (h : x ∉ xs) :
    arrayIndexOf xs x = -1 := by
  induction xs with
  | nil => rfl
  | cons y ys ih =>
    have hne : y ≠ x := fun hEq => h (hEq ▸ List.mem_cons_self _ _)
    have hys : x ∉ ys := fun hm => h (List.mem_cons_of_mem _ hm)
    unfold arrayIndexOf
    rw [if_neg hne]
    simp [ih hys]

theorem arrayIndexOf_append_cons {α : Type} [DecidableEq α] (pre post : List α) (x : α)
    (h : x ∉ pre) : arrayIndexOf (pre ++ x :: post) x = (pre.length : Int) := by
  induction pre with
  | nil =>
    simp only [List.nil_append]
    unfold arrayIndexOf
    rw [if_pos rfl]
    rfl
  | cons y ys ih =>
    have hne : y ≠ x := fun hEq => h (hEq ▸ List.mem_cons_self _ _)
    have hys : x ∉ ys := fun hm => h (List.mem_cons_of_mem _ hm)
    simp only [List.cons_append]
    unfold arrayIndexOf
    rw [if_neg hne, ih hys]
    simp only
    rw [if_neg (by omega)]
    simp

theorem exists_first_occurrence {α : Type} [DecidableEq α] (xs : List α) (x : α) (h : x ∈ xs) :
    ∃ pre post, xs = pre ++ x :: post ∧ x ∉ pre := by
  induction xs with
  | nil => cases h
  | cons y ys ih =>
    by_cases hyx : y = x
    · exact ⟨[], ys, by simp [hyx], by simp⟩
    · have hys : x ∈ ys := by
        rcases List.mem_cons.mp h with h | h
        · exact absurd h.symm hyx
        · exact h
      obtain ⟨pre, post, he, hp⟩ := ih hys
      refine ⟨y :: pre, post, by simp [he], ?_⟩
      intro hm
      rcases List.mem_cons.mp hm with h | h
      · exact hyx h.symm
      · exact hp h

theorem eraseIdx_append_cons {α : Type} (pre post : List α) (x : α) :
    (pre ++ x :: post).eraseIdx pre.length = pre ++ post := by
  induction pre with
  | nil => rfl
  | cons y ys ih => simp [ih]

theorem splice1_nat {α : Type} (xs : List α) (i : Nat) : splice1 xs (i : Int) = xs.eraseIdx i := by
  unfold splice1
  simp only
  rw [if_neg (by omega)]
  by_cases h : i ≤ xs.length
  · have : (min (i : Int) (xs.length : Int)).toNat = i := by omega
    rw [this]
  · have : (min (i : Int) (xs.length : Int)).toNat = xs.length := by omega
    rw [this, List.eraseIdx_of_length_le (le_refl _), List.eraseIdx_of_length_le (by omega)]

theorem splice1_neg_one {α : Type} (xs : List α) : splice1 xs (-1) = xs.dropLast := by
  unfold splice1
  simp only
  rw [if_pos (by omega)]
  cases hx : xs with
  | nil => rfl
  | cons y ys =>
    have : (max (((y :: ys).length : Int) + -1) 0).toNat = ys.length := by
      simp only [List.length_cons]; omega
    rw [this]
    exact (List.dropLast_eq_eraseIdx (by simp)).symm

theorem removePoller_of_first {V : Type} (PIDS : List (PidDefinition V)) (name : Str)
    (pre post : List (Option Str)) (h : getPIDByName PIDS name ∉ pre) :
    removePoller PIDS name (pre ++ getPIDByName PIDS name :: post) = pre ++ post := by
  unfold removePoller
  simp only
  rw [arrayIndexOf_append_cons _ _ _ h, splice1_nat, eraseIdx_append_cons]

theorem removePoller_of_not_mem {V : Type} (PIDS : List (PidDefinition V)) (name : Str)
    (activePollers : List (Option Str)) (h : getPIDByName PIDS name ∉ activePollers) :
    removePoller PIDS name activePollers = activePollers.dropLast := by
  unfold removePoller
  simp only
  rw [arrayIndexOf_of_not_mem _ _ h, splice1_neg_one]

theorem write_injective (a b : Option Str) (h : write a = write b) : toStr a = toStr b := by
  unfold write at h
  exact List.append_cancel_right h

/-- C4 (amended). When the encoded command of a known name occurs at most
once in `activePollers` (and is not the text `undefined`, which an undefined
entry is written as), a poll tick after `removePoller(name)` does not write
that command. -/
theorem removePoller_then_tick_silent {V : Type} (PIDS : List (PidDefinition V))
    (name cmd : Str) (activePollers : List (Option Str))
    (hknown : getPIDByName PIDS name = some cmd)
    (honce : activePollers.count (some cmd) ≤ 1)
    (hundef : cmd ≠ "undefined".toList) :
    write (some cmd) ∉ writePollers (removePoller PIDS name activePollers) := by
  have hkey : some cmd ∉ removePoller PIDS name activePollers := by
    by_cases hmem : some cmd ∈ activePollers
    · obtain ⟨pre, post, he, hpre⟩ := exists_first_occurrence _ _ hmem
      subst he
      have hpost : some cmd ∉ post := by
        intro hm
        have h1 : 0 < post.count (some cmd) := List.count_pos_iff.mpr hm
        rw [List.count_append, List.count_cons_self] at honce
        omega
      have := removePoller_of_first PIDS name pre post (by rw [hknown]; exact hpre)
      rw [hknown] at this
      rw [this]
      simp [hpre, hpost]
    · rw [removePoller_of_not_mem PIDS name _ (by rw [hknown]; exact hmem)]
      exact fun hm => hmem (List.dropLast_subset _ hm)
  intro hw
  unfold writePollers at hw
  obtain ⟨y, hy, hyw⟩ := List.mem_map.mp hw
  have hs := write_injective _ _ hyw
  cases y with
  | none => exact hundef hs.symm
  | some c =>
    have : c = cmd := hs
    exact hkey (this ▸ hy)

theorem removePoller_then_tick_silent_witness :
    write (some "010D".toList) ∉
      writePollers (removePoller samplePIDS "vss".toList (addPoller samplePIDS "vss".toList [])) :=
  removePoller_then_tick_silent samplePIDS "vss".toList "010D".toList
    (addPoller samplePIDS "vss".toList []) (by decide) (by decide) (by decide)

/-- C4 (as stated) fails: after `addPoller("vss")` twice, a reachable state,
`removePoller("vss")` removes one of the two entries and the poll tick still
writes the encoded command `010D`. -/
theorem removePoller_duplicate_counterexample :
    getPIDByName samplePIDS "vss".toList = some "010D".toList ∧
      writePollers (removePoller samplePIDS "vss".toList
          (addPoller samplePIDS "vss".toList (addPoller samplePIDS "vss".toList [])))
        = [write (some "010D".toList)] := by
  decide

/-- C3 at its failing input: with the pollers `pidsupp0` and `runtm` active
and no `vss` entry, `removePoller("vss")` is not a no-op, it removes the last
entry, the poller `runtm`. -/
theorem removePoller_absent_removes_last :
    arrayIndexOf [some "0100".toList, some "011F".toList] (getPIDByName samplePIDS "vss".toList) = -1 ∧
      removePoller samplePIDS "vss".toList
          (addPoller samplePIDS "runtm".toList (addPoller samplePIDS "pidsupp0".toList []))
        = [some "0100".toList] := by
  decide

/-- C7 at its failing input: for a name of no entry, `requestValueByName`
performs one write on the sink, the text `undefined` and a CR. -/
theorem requestValueByName_unknown_writes :
    (∀ e ∈ samplePIDS, e.name ≠ "not_a_real_pid".toList) ∧
      requestValueByName samplePIDS "not_a_real_pid".toList = ["undefined\r".toList] := by
  decide

/-- C8 at its failing input: for a name of no entry, `addPoller` appends an
undefined entry to `activePollers`, and the next poll tick writes the text
`undefined` and a CR for it. -/
theorem addPoller_unknown_queues :
    (∀ e ∈ samplePIDS, e.name ≠ "not_a_real_pid".toList) ∧
      addPoller samplePIDS "not_a_real_pid".toList [some "010D".toList]
        = [some "010D".toList, none] ∧
      writePollers [some "010D".toList] = ["010D\r".toList] ∧
      writePollers (addPoller samplePIDS "not_a_real_pid".toList [some "010D".toList])
        = ["010D\r".toList, "undefined\r".toList] := by
  decide

/-- C10 at its failing input: after `startPolling(); startPolling();
stopPolling()` the timer of the first `startPolling` is still live, and with
the poller `vss` active every period still writes its command. -/
theorem stopPolling_leaves_first_timer :
    (Scheduler.run samplePIDS Scheduler.init
        [.addPoller "vss".toList, .startPolling, .startPolling, .stopPolling]).liveTimers = [0] ∧
      (Scheduler.run samplePIDS Scheduler.init
        [.addPoller "vss".toList, .startPolling, .startPolling, .stopPolling]).period
        = ["010D\r".toList] := by
  decide

/-! ## Lemmas on the frame reader -/

theorem splitAux_of_not_mem (sep : Char) (s : Str) (h : sep ∉ s) : splitAux sep s = (s, []) := by
  induction s with
  | nil => rfl
  | cons c cs ih =>
    have hne : c ≠ sep := fun hEq => h (hEq ▸ List.mem_cons_self _ _)
    have hcs : sep ∉ cs := fun hm => h (List.mem_cons_of_mem _ hm)
    unfold splitAux
    simp only [if_neg hne, ih hcs]

theorem splitAux_append_sep (sep : Char) (a b : Str) (h : sep ∉ a) :
    splitAux sep (a ++ sep :: b) = (a, split b sep) := by
  induction a with
  | nil =>
    simp only [List.nil_append]
    unfold splitAux
    simp only [if_pos, split]
  | cons c cs ih =>
    have hne : c ≠ sep := fun hEq => h (hEq ▸ List.mem_cons_self _ _)
    have hcs : sep ∉ cs := fun hm => h (List.mem_cons_of_mem _ hm)
    simp only [List.cons_append]
    unfold splitAux
    simp only [if_neg hne, ih hcs]

theorem split_of_not_mem (sep : Char) (s : Str) (h : sep ∉ s) : split s sep = [s] := by
  unfold split
  rw [splitAux_of_not_mem sep s h]

theorem split_append_sep (sep : Char) (a b : Str) (h : sep ∉ a) :
    split (a ++ sep :: b) sep = a :: split b sep := by
  unfold split
  rw [splitAux_append_sep sep a b h]
  rfl

theorem split_length_of_mem (sep : Char) (s : Str) (h : sep ∈ s) : 2 ≤ (split s sep).length := by
  obtain ⟨a, b, he, ha⟩ := exists_first_occurrence s sep h
  rw [he, split_append_sep sep a b ha]
  simp [split]

theorem lastIndexOf?_eq_none_iff (pat s : Str) : lastIndexOf? pat s = none ↔ ¬ pat <:+: s := by
  induction s with
  | nil =>
    unfold lastIndexOf?
    by_cases hp : pat = []
    · simp [hp]
    · simp [hp]
  | cons c cs ih =>
    unfold lastIndexOf?
    rw [List.infix_cons_iff]
    cases hcs : lastIndexOf? pat cs with
    | some i =>
      have : pat <:+: cs := by
        by_contra hn
        rw [ih.mpr hn] at hcs
        cases hcs
      simp [this]
    | none =>
      have hn : ¬ pat <:+: cs := ih.mp hcs
      by_cases hpre : pat.isPrefixOf (c :: cs) = true
      · have : pat <+: c :: cs := List.isPrefixOf_iff_prefix.mp hpre
        simp [hpre, this]
      · have : ¬ pat <+: c :: cs := fun hp => hpre (List.isPrefixOf_iff_prefix.mpr hp)
        simp [hpre, this, hn]

theorem lastIndexOf?_append_left (pat a t : Str) (i : Nat) (h : lastIndexOf? pat t = some i) :
    lastIndexOf? pat (a ++ t) = some (a.length + i) := by
  induction a with
  | nil => simpa using h
  | cons c cs ih =>
    simp only [List.cons_append]
    unfold lastIndexOf?
    rw [ih]
    simp only [List.length_cons]
    congr 1
    omega

theorem lastIndexOf?_CRLF_append (a b : Str) (h : ¬ CRLF <:+: b) :
    lastIndexOf? CRLF (a ++ CRLF ++ b) = some a.length := by
  have hb : lastIndexOf? CRLF b = none := (lastIndexOf?_eq_none_iff CRLF b).mpr h
  have h1 : lastIndexOf? CRLF ('\n' :: b) = none := by
    unfold lastIndexOf?
    rw [hb]
    simp [CRLF, List.isPrefixOf]
  have h0 : lastIndexOf? CRLF (CRLF ++ b) = some 0 := by
    show lastIndexOf? CRLF ('\r' :: '\n' :: b) = some 0
    unfold lastIndexOf?
    rw [h1]
    simp [CRLF, List.isPrefixOf]
  rw [List.append_assoc, lastIndexOf?_append_left CRLF a _ 0 h0]
  rfl

theorem lastIndexOf_CRLF_append (a b : Str) (h : ¬ CRLF <:+: b) :
    lastIndexOf (a ++ CRLF ++ b) CRLF = (a.length : Int) := by
  unfold lastIndexOf
  rw [lastIndexOf?_CRLF_append a b h]

theorem lastIndexOf_of_no_CRLF (s : Str) (h : ¬ CRLF <:+: s) : lastIndexOf s CRLF = -1 := by
  unfold lastIndexOf
  rw [(lastIndexOf?_eq_none_iff CRLF s).mpr h]

theorem lastIndexOf_nonneg_of_CRLF (s : Str) (h : CRLF <:+: s) : -1 < lastIndexOf s CRLF := by
  unfold lastIndexOf
  cases hs : lastIndexOf? CRLF s with
  | none => exact absurd h ((lastIndexOf?_eq_none_iff CRLF s).mp hs)
  | some i => simp only; omega

theorem framePayload_isSome_iff (forString : Str) (currentLength : Int) :
    (framePayload forString currentLength).isSome = true ↔ CRLF <:+: forString := by
  unfold framePayload
  simp only
  by_cases h : CRLF <:+: forString
  · have := lastIndexOf_nonneg_of_CRLF forString h
    simp [this, h]
  · rw [lastIndexOf_of_no_CRLF forString h]
    simp [h]

theorem processCommand_nil {V : Type} (PIDS : List (PidDefinition V)) (currentLength : Int)
    (r : Reader V) : processCommand PIDS currentLength r [] = r := by
  unfold processCommand
  rw [if_pos rfl]

theorem processCommand_of_no_CRLF {V : Type} (PIDS : List (PidDefinition V))
    (currentLength : Int) (r : Reader V) (forString : Str) (h : ¬ CRLF <:+: forString) :
    processCommand PIDS currentLength r forString = r := by
  unfold processCommand
  have hn : framePayload forString currentLength = none := by
    have := (framePayload_isSome_iff forString currentLength).not.mpr h
    simpa using this
  rw [hn]
  split <;> rfl

theorem processCommand_of_payload {V : Type} (PIDS : List (PidDefinition V))
    (currentLength : Int) (r : Reader V) (forString payload : Str)
    (h : framePayload forString currentLength = some payload) :
    processCommand PIDS currentLength r forString
      = { receivedData := [], emitted := r.emitted ++ [parseOBDCommand PIDS payload] } := by
  have hne : forString ≠ [] := by
    intro he
    rw [he] at h
    have : (framePayload [] currentLength).isSome = true := by rw [h]; rfl
    have := (framePayload_isSome_iff [] currentLength).mp this
    simp [CRLF] at this
  unfold processCommand
  rw [if_neg hne, h]

theorem processCommand_of_CRLF {V : Type} (PIDS : List (PidDefinition V))
    (currentLength : Int) (r : Reader V) (forString : Str) (h : CRLF <:+: forString) :
    ∃ payload, framePayload forString currentLength = some payload ∧
      processCommand PIDS currentLength r forString
        = { receivedData := [], emitted := r.emitted ++ [parseOBDCommand PIDS payload] } := by
  have hs := (framePayload_isSome_iff forString currentLength).mpr h
  obtain ⟨payload, hp⟩ := Option.isSome_iff_exists.mp hs
  exact ⟨payload, hp, processCommand_of_payload PIDS currentLength r forString payload hp⟩

theorem foldl_processCommand_of_forall_not {V : Type} (PIDS : List (PidDefinition V))
    (currentLength : Int) (segs : List Str) (r : Reader V) (h : ∀ seg ∈ segs, ¬ CRLF <:+: seg) :
    segs.foldl (processCommand PIDS currentLength) r = r := by
  induction segs generalizing r with
  | nil => rfl
  | cons s rest ih =>
    rw [List.foldl_cons, processCommand_of_no_CRLF PIDS currentLength r s
      (h s (List.mem_cons_self _ _))]
    exact ih r (fun seg hseg => h seg (List.mem_cons_of_mem _ hseg))

theorem foldl_processCommand_receivedData_nil {V : Type} (PIDS : List (PidDefinition V))
    (currentLength : Int) (segs : List Str) (r : Reader V) (h : r.receivedData = []) :
    (segs.foldl (processCommand PIDS currentLength) r).receivedData = [] := by
  induction segs generalizing r with
  | nil => exact h
  | cons s rest ih =>
    rw [List.foldl_cons]
    apply ih
    by_cases hs : CRLF <:+: s
    · obtain ⟨payload, _, hp⟩ := processCommand_of_CRLF PIDS currentLength r s hs
      rw [hp]
    · rw [processCommand_of_no_CRLF PIDS currentLength r s hs]
      exact h

theorem foldl_processCommand_receivedData_of_exists {V : Type} (PIDS : List (PidDefinition V))
    (currentLength : Int) (segs : List Str) (r : Reader V)
    (h : ∃ seg ∈ segs, CRLF <:+: seg) :
    (segs.foldl (processCommand PIDS currentLength) r).receivedData = [] := by
  induction segs generalizing r with
  | nil =>
    obtain ⟨seg, hseg, _⟩ := h
    cases hseg
  | cons s rest ih =>
    rw [List.foldl_cons]
    by_cases hs : CRLF <:+: s
    · obtain ⟨payload, _, hp⟩ := processCommand_of_CRLF PIDS currentLength r s hs
      rw [hp]
      exact foldl_processCommand_receivedData_nil PIDS currentLength rest _ rfl
    · apply ih
      obtain ⟨seg, hseg, hinf⟩ := h
      rcases List.mem_cons.mp hseg with he | hm
      · exact absurd (he ▸ hinf) hs
      · exact ⟨seg, hm, hinf⟩

theorem onData_of_prompt {V : Type} (PIDS : List (PidDefinition V)) (r : Reader V) (data : Str)
    (h : '>' ∈ r.receivedData ++ data) :
    onData PIDS r data
      = (split (r.receivedData ++ data) '>').foldl
          (processCommand PIDS ((r.receivedData ++ data).length : Int)) r := by
  unfold onData
  simp only
  rw [if_neg (by have := split_length_of_mem '>' _ h; omega)]

theorem onData_of_no_prompt {V : Type} (PIDS : List (PidDefinition V)) (r : Reader V)
    (data : Str) (h : '>' ∉ r.receivedData ++ data) :
    onData PIDS r data = { r with receivedData := r.receivedData ++ data } := by
  unfold onData
  simp only
  rw [split_of_not_mem '>' _ h]
  simp

/-- C5 (amended). When `receivedData ++ chunk` contains the prompt `>` and
some segment of its split on `>` contains a CR-LF, `receivedData` is the empty
string after the `data` handler has processed the chunk. -/
theorem receivedData_reset_after_frame {V : Type} (PIDS : List (PidDefinition V)) (r : Reader V)
    (data : Str) (hprompt : '>' ∈ r.receivedData ++ data)
    (hframe : ∃ seg ∈ split (r.receivedData ++ data) '>', CRLF <:+: seg) :
    (onData PIDS r data).receivedData = [] := by
  rw [onData_of_prompt PIDS r data hprompt]
  exact foldl_processCommand_receivedData_of_exists PIDS _ _ r hframe

theorem receivedData_reset_after_frame_witness :
    (onData samplePIDS { receivedData := "010D\r\n41 0D".toList, emitted := [] }
        " 32\r\n>".toList).receivedData = [] :=
  receivedData_reset_after_frame samplePIDS
    { receivedData := "010D\r\n41 0D".toList, emitted := [] } " 32\r\n>".toList (by decide)
    ⟨"010D\r\n41 0D 32\r\n".toList, by decide, "010D".toList, "41 0D 32\r\n".toList, by decide⟩

/-- C5 (as stated) fails: with `ab` buffered, the chunk `c>` brings a prompt,
its only non-empty segment `abc` has no CR-LF, and `receivedData` is still
`ab` after the handler. -/
theorem receivedData_not_reset_counterexample :
    '>' ∈ "ab".toList ++ "c>".toList ∧
      (onData samplePIDS { receivedData := "ab".toList, emitted := [] } "c>".toList).receivedData
        = "ab".toList ∧
      "ab".toList ≠ [] := by
  decide

theorem append_cons_eq_append_singleton {α : Type} (a b f : List α) (x : α) (hx : x ∉ f)
    (h : a ++ x :: b = f ++ [x]) : a = f ∧ b = [] := by
  induction a generalizing f with
  | nil =>
    cases f with
    | nil => simpa using h
    | cons y ys =>
      simp only [List.nil_append, List.cons_append, List.cons.injEq] at h
      exact absurd (h.1 ▸ List.mem_cons_self _ _) hx
  | cons c cs ih =>
    cases f with
    | nil =>
      simp only [List.cons_append, List.nil_append, List.cons.injEq] at h
      have := congrArg List.length h.2
      simp at this
    | cons y ys =>
      simp only [List.cons_append, List.cons.injEq] at h
      obtain ⟨h1, h2⟩ := ih ys (fun hm => hx (List.mem_cons_of_mem _ hm)) h.2
      exact ⟨by rw [h.1, h1], h2⟩

theorem onData_single_frame {V : Type} (PIDS : List (PidDefinition V)) (r : Reader V)
    (data f : Str) (hcur : r.receivedData ++ data = f ++ ['>']) (hf : '>' ∉ f)
    (hcrlf : CRLF <:+: f) :
    ∃ payload, framePayload f ((f.length : Int) + 1) = some payload ∧
      onData PIDS r data
        = { receivedData := [], emitted := r.emitted ++ [parseOBDCommand PIDS payload] } := by
  have hprompt : '>' ∈ r.receivedData ++ data := by rw [hcur]; simp
  obtain ⟨payload, hp, hproc⟩ := processCommand_of_CRLF PIDS ((f.length : Int) + 1) r f hcrlf
  refine ⟨payload, hp, ?_⟩
  rw [onData_of_prompt PIDS r data hprompt, hcur, split_append_sep '>' f [] hf]
  have hlen : ((f ++ ['>']).length : Int) = (f.length : Int) + 1 := by simp
  rw [hlen]
  have hs : split ([] : Str) '>' = [[]] := rfl
  rw [hs, List.foldl_cons, List.foldl_cons, List.foldl_nil, processCommand_nil, hproc]

theorem onData_empty_chunk {V : Type} (PIDS : List (PidDefinition V)) (r : Reader V)
    (h : r.receivedData = []) : onData PIDS r [] = r := by
  rw [onData_of_no_prompt PIDS r [] (by simp [h])]
  simp

theorem feed_empty_chunks {V : Type} (PIDS : List (PidDefinition V)) (chunks : List Str)
    (r : Reader V) (h : r.receivedData = []) (hchunks : chunks.flatten = []) :
    feed PIDS r chunks = r := by
  induction chunks with
  | nil => rfl
  | cons c cs ih =>
    have hc : c = [] ∧ cs.flatten = [] := by simpa using hchunks
    unfold feed at ih ⊢
    rw [List.foldl_cons, hc.1, onData_empty_chunk PIDS r h]
    exact ih hc.2

theorem feed_single_frame {V : Type} (PIDS : List (PidDefinition V)) (f : Str)
    (hf : '>' ∉ f) (hcrlf : CRLF <:+: f) (chunks : List Str) (r : Reader V)
    (hr : '>' ∉ r.receivedData) (hcur : r.receivedData ++ chunks.flatten = f ++ ['>']) :
    ∃ payload, framePayload f ((f.length : Int) + 1) = some payload ∧
      feed PIDS r chunks
        = { receivedData := [], emitted := r.emitted ++ [parseOBDCommand PIDS payload] } := by
  induction chunks generalizing r with
  | nil =>
    simp only [List.flatten_nil, List.append_nil] at hcur
    exact absurd (by rw [hcur]; simp) hr
  | cons c cs ih =>
    unfold feed at ih ⊢
    rw [List.foldl_cons]
    by_cases hc : '>' ∈ c
    · obtain ⟨c1, c2, hce, _⟩ := exists_first_occurrence c '>' hc
      have hsplit : (r.receivedData ++ c1) ++ '>' :: (c2 ++ cs.flatten) = f ++ ['>'] := by
        rw [← hcur, hce]
        simp
      obtain ⟨h1, h2⟩ := append_cons_eq_append_singleton _ _ f '>' hf hsplit
      have hc2 : c2 = [] ∧ cs.flatten = [] := by simpa using h2
      have hrc : r.receivedData ++ c = f ++ ['>'] := by
        rw [hce, hc2.1, ← List.append_assoc, h1]
      obtain ⟨payload, hp, hon⟩ := onData_single_frame PIDS r c f hrc hf hcrlf
      refine ⟨payload, hp, ?_⟩
      rw [hon]
      exact feed_empty_chunks PIDS cs _ rfl hc2.2
    · have hno : '>' ∉ r.receivedData ++ c := by
        simp only [List.mem_append, not_or]
        exact ⟨hr, hc⟩
      rw [onData_of_no_prompt PIDS r c hno]
      exact ih { r with receivedData := r.receivedData ++ c } hno
        (by simpa [List.append_assoc] using hcur)

/-- C2. Chunk-boundary invariance: for a string `f` without `>` that contains
a CR-LF, and any sequence of chunks whose concatenation is `f ++ ">"`, feeding
the chunks in order to the `data` handler of a new reader emits exactly one
`dataReceived` event, and its reply is the one emitted when `f ++ ">"` is fed
as a single chunk. -/
theorem chunk_boundary_invariance {V : Type} (PIDS : List (PidDefinition V)) (f : Str)
    (chunks : List Str) (hf : '>' ∉ f) (hcrlf : CRLF <:+: f)
    (hchunks : chunks.flatten = f ++ ['>']) :
    ∃ reply, (feed PIDS Reader.init chunks).emitted = [reply] ∧
      (onData PIDS Reader.init (f ++ ['>'])).emitted = [reply] := by
  obtain ⟨payload, hp, hfeed⟩ := feed_single_frame PIDS f hf hcrlf chunks Reader.init
    (by simp [Reader.init]) (by simpa [Reader.init] using hchunks)
  obtain ⟨payload2, hp2, hone⟩ := onData_single_frame PIDS Reader.init (f ++ ['>']) f
    (by simp [Reader.init]) hf hcrlf
  have hpp : payload2 = payload := by
    rw [hp] at hp2
    exact (Option.some.inj hp2).symm
  refine ⟨parseOBDCommand PIDS payload, ?_, ?_⟩
  · rw [hfeed]; simp [Reader.init]
  · rw [hone, hpp]; simp [Reader.init]

theorem chunk_boundary_invariance_witness :
    ∃ reply,
      (feed samplePIDS Reader.init
          ["010D\r".toList, "\n41 0".toList, "D 32\r\n".toList, ">".toList]).emitted = [reply] ∧
        (onData samplePIDS Reader.init ("010D\r\n41 0D 32\r\n".toList ++ ['>'])).emitted
          = [reply] :=
  chunk_boundary_invariance samplePIDS "010D\r\n41 0D 32\r\n".toList
    ["010D\r".toList, "\n41 0".toList, "D 32\r\n".toList, ">".toList]
    (by decide) ⟨"010D".toList, "41 0D 32\r\n".toList, by decide⟩ (by decide)

theorem framePayload_frame (echo payload tail : Str) (l : Nat) (hl : payload.length ≤ l)
    (hpayload : ¬ CRLF <:+: payload) (htail : ¬ CRLF <:+: tail) :
    framePayload (echo ++ CRLF ++ payload ++ CRLF ++ tail) (l : Int) = some payload := by
  unfold framePayload
  simp only
  have hend : lastIndexOf (echo ++ CRLF ++ payload ++ CRLF ++ tail) CRLF
      = ((echo ++ CRLF ++ payload).length : Int) :=
    lastIndexOf_CRLF_append (echo ++ CRLF ++ payload) tail htail
  rw [hend, if_pos (by omega)]
  have h0 : substr (echo ++ CRLF ++ payload ++ CRLF ++ tail) 0
      ((echo ++ CRLF ++ payload).length : Int) = echo ++ CRLF ++ payload := by
    have := substr_nat (echo ++ CRLF ++ payload ++ CRLF ++ tail) 0 (echo ++ CRLF ++ payload).length
    rw [Nat.cast_zero] at this
    rw [this, List.drop_zero, List.append_assoc (echo ++ CRLF ++ payload), List.take_left']
    rfl
  rw [h0, lastIndexOf_CRLF_append echo payload hpayload]
  have h2 : ((echo.length : Int) + 2) = ((echo.length + 2 : Nat) : Int) := by push_cast; rfl
  rw [h2, substr_nat]
  have hd : List.drop (echo.length + 2) (echo ++ CRLF ++ payload) = payload := by
    have : (echo ++ CRLF).length = echo.length + 2 := by simp [CRLF]
    rw [← this, List.drop_left']
    rfl
  rw [hd, List.take_of_length_le hl]

theorem valueArray_length (s : Str) : (valueArray s).length = (s.length + 1) / 2 := by
  simp [valueArray]

theorem removeSpaces_length_le (s : Str) : (removeSpaces s).length ≤ s.length :=
  List.length_filter_le _ _

theorem flatten_length_of_two (bs : List Str) (h : ∀ b ∈ bs, b.length = 2) :
    bs.flatten.length = 2 * bs.length := by
  induction bs with
  | nil => rfl
  | cons b rest ih =>
    have hb := h b (List.mem_cons_self _ _)
    have hr := ih (fun x hx => h x (List.mem_cons_of_mem _ hx))
    simp only [List.flatten_cons, List.length_append, List.length_cons, hb, hr]
    omega

theorem convertedValue_short {V : Type} (e : PidDefinition V) (m p : Str) (d : Str)
    (hm : m.length = 2) (hp : p.length = 2)
    (hbytes : e.bytes = 1 ∨ e.bytes = 2 ∨ e.bytes = 4 ∨ e.bytes = 8)
    (hshort : d.length + 2 ≤ 2 * e.bytes) :
    ∃ args, convertedValue e (valueArray (m ++ p ++ d)) = some (.converted (e.convertToUseful args))
      ∧ args.length = e.bytes ∧ args.getLast? = some none := by
  match m, hm with
  | [m1, m2], _ =>
    match p, hp with
    | [p1, p2], _ =>
      have hva : valueArray ([m1, m2] ++ [p1, p2] ++ d) = [m1, m2] :: [p1, p2] :: valueArray d := by
        simp [valueArray_cons_cons]
      rw [hva]
      have hlen := valueArray_length d
      unfold convertedValue
      rcases hbytes with h | h | h | h
      · have hn : (valueArray d)[0]? = none := List.getElem?_eq_none (by omega)
        exact ⟨_, by rw [h], by simp [h], by simp [hn]⟩
      · have hn : (valueArray d)[1]? = none := List.getElem?_eq_none (by omega)
        exact ⟨_, by rw [h], by simp [h], by simp [hn]⟩
      · have hn : (valueArray d)[3]? = none := List.getElem?_eq_none (by omega)
        exact ⟨_, by rw [h], by simp [h], by simp [hn]⟩
      · have hn : (valueArray d)[7]? = none := List.getElem?_eq_none (by omega)
        exact ⟨_, by rw [h], by simp [h], by simp [hn]⟩

theorem onData_frame {V : Type} (PIDS : List (PidDefinition V)) (r : Reader V)
    (echo payload : Str) (hr : '>' ∉ r.receivedData) (hecho : '>' ∉ echo)
    (hpayload : '>' ∉ payload ∧ ¬ CRLF <:+: payload) :
    onData PIDS r (echo ++ CRLF ++ payload ++ CRLF ++ ['>'])
      = { receivedData := [], emitted := r.emitted ++ [parseOBDCommand PIDS payload] } := by
  have hcur : r.receivedData ++ (echo ++ CRLF ++ payload ++ CRLF ++ ['>'])
      = ((r.receivedData ++ echo) ++ CRLF ++ payload ++ CRLF ++ []) ++ ['>'] := by
    simp
  have hf : '>' ∉ (r.receivedData ++ echo) ++ CRLF ++ payload ++ CRLF ++ [] := by
    simp [hr, hecho, hpayload.1, CRLF]
  have hcrlf : CRLF <:+: (r.receivedData ++ echo) ++ CRLF ++ payload ++ CRLF ++ [] :=
    ⟨(r.receivedData ++ echo) ++ CRLF ++ payload, [], by simp⟩
  obtain ⟨pl, hpl, hon⟩ := onData_single_frame PIDS r _ _ hcur hf hcrlf
  have hfp := framePayload_frame (r.receivedData ++ echo) payload []
    (((r.receivedData ++ echo) ++ CRLF ++ payload ++ CRLF ++ []).length + 1)
    (by simp; omega) hpayload.2 (by simp [CRLF])
  rw [Nat.cast_add, Nat.cast_one, hpl] at hfp
  rw [hon, Option.some.inj hfp]

/-- C9 (amended). A frame with too few data bytes is not dropped: for an entry
`e` with byte count in {1,2,4,8}, a two-character mode and pid without spaces,
and no entry before it with the same pid, and a complete frame
`echo CR-LF payload CR-LF >` whose payload is `e.mode ++ e.pid` followed by
fewer than `e.bytes` two-character data bytes, the `data` handler emits
exactly one `dataReceived` event for the frame: the reply of `parseOBDCommand`
on the payload, which is named `e.name` and whose value is `e.convertToUseful`
applied to `e.bytes` arguments, the last of them `undefined`. -/
theorem short_frame_emits_reply {V : Type} (PIDS : List (PidDefinition V)) (r : Reader V)
    (e : PidDefinition V) (i : Nat) (p echo : Str) (dataBytes : List Str)
    (hi : PIDS[i]? = some e) (hpid : e.pid = some p)
    (hbytes : e.bytes = 1 ∨ e.bytes = 2 ∨ e.bytes = 4 ∨ e.bytes = 8)
    (hmode : e.mode.length = 2 ∧ ' ' ∉ e.mode) (hp : p.length = 2 ∧ ' ' ∉ p)
    (hfirst : ∀ x ∈ PIDS.take i, x.pid ≠ some p)
    (hdata : dataBytes.length < e.bytes ∧ ∀ b ∈ dataBytes, b.length = 2)
    (hr : '>' ∉ r.receivedData) (hecho : '>' ∉ echo)
    (hpayload : '>' ∉ e.mode ++ p ++ dataBytes.flatten ∧
      ¬ CRLF <:+: e.mode ++ p ++ dataBytes.flatten) :
    (onData PIDS r (echo ++ CRLF ++ (e.mode ++ p ++ dataBytes.flatten) ++ CRLF ++ ['>'])).emitted
        = r.emitted ++ [parseOBDCommand PIDS (e.mode ++ p ++ dataBytes.flatten)] ∧
      (parseOBDCommand PIDS (e.mode ++ p ++ dataBytes.flatten)).name = some e.name ∧
      ∃ args, (parseOBDCommand PIDS (e.mode ++ p ++ dataBytes.flatten)).value
          = some (.converted (e.convertToUseful args)) ∧
        args.length = e.bytes ∧ args.getLast? = some none := by
  refine ⟨?_, ?_, ?_⟩
  · rw [onData_frame PIDS r echo _ hr hecho hpayload]
  · rw [parseOBDCommand_of_first PIDS e i e.mode p _ hi hpid hmode.1 hp.1 hmode.2 hp.2 hfirst]
  · rw [parseOBDCommand_of_first PIDS e i e.mode p _ hi hpid hmode.1 hp.1 hmode.2 hp.2 hfirst]
    have h1 := removeSpaces_length_le dataBytes.flatten
    have h2 := flatten_length_of_two dataBytes hdata.2
    exact convertedValue_short e e.mode p _ hmode.1 hp.1 hbytes (by omega)

theorem short_frame_emits_reply_witness :
    (onData samplePIDS Reader.init
        ("010D".toList ++ CRLF ++ ("01".toList ++ "0D".toList ++ ([] : List Str).flatten)
          ++ CRLF ++ ['>'])).emitted
        = Reader.init.emitted
          ++ [parseOBDCommand samplePIDS ("01".toList ++ "0D".toList ++ ([] : List Str).flatten)] ∧
      (parseOBDCommand samplePIDS ("01".toList ++ "0D".toList ++ ([] : List Str).flatten)).name
        = some "vss".toList ∧
      ∃ args, (parseOBDCommand samplePIDS
            ("01".toList ++ "0D".toList ++ ([] : List Str).flatten)).value
          = some (.converted (convertHex args)) ∧
        args.length = 1 ∧ args.getLast? = some none :=
  short_frame_emits_reply samplePIDS Reader.init vssEntry 2 "0D".toList "010D".toList []
    (by rfl) (by rfl) (by decide) (by decide) (by decide) (by decide) (by decide) (by decide)
    (by decide) ⟨by decide, by decide⟩

/-- C9 (as stated) fails: the frame `010D CR-LF 010D CR-LF >` carries the mode
and pid of the one-byte entry `vss` and no data byte, and the handler emits a
`dataReceived` event for it, named `vss`, with the value the decode rule
returns for an `undefined` byte. -/
theorem short_frame_counterexample :
    (samplePIDS[2]?.map (fun e => (e.name, e.mode, e.pid, e.bytes)))
        = some ("vss".toList, "01".toList, some "0D".toList, 1) ∧
      (onData samplePIDS Reader.init "010D\r\n010D\r\n>".toList).emitted
        = [{ value := some (.converted (convertHex [none])), name := some "vss".toList,
             mode := some "01".toList, pid := some "0D".toList }] := by
  decide

/-! ## Sentinels, lookup by name, short replies -/

/-- C11. Sentinel handling: for every PID table, `parseOBDCommand("NO DATA")`
and `parseOBDCommand("OK")` each return a reply whose value is that literal
string and whose mode, pid and name are unset. -/
theorem sentinel_replies {V : Type} (PIDS : List (PidDefinition V)) :
    parseOBDCommand PIDS "NO DATA".toList
        = { value := some (.text "NO DATA".toList), name := none, mode := none, pid := none } ∧
      parseOBDCommand PIDS "OK".toList
        = { value := some (.text "OK".toList), name := none, mode := none, pid := none } := by
  constructor
  · unfold parseOBDCommand
    rw [if_pos (Or.inl rfl)]
  · unfold parseOBDCommand
    rw [if_pos (Or.inr rfl)]

theorem getPIDByName_of_first {V : Type} (pre post : List (PidDefinition V))
    (e : PidDefinition V) (hpre : ∀ x ∈ pre, x.name ≠ e.name) :
    getPIDByName (pre ++ e :: post) e.name = some e.request := by
  induction pre with
  | nil =>
    simp only [List.nil_append]
    unfold getPIDByName PidDefinition.request
    rw [if_pos rfl]
    cases e.pid <;> rfl
  | cons x rest ih =>
    simp only [List.cons_append]
    unfold getPIDByName
    rw [if_neg (hpre x (List.mem_cons_self _ _))]
    exact ih (fun y hy => hpre y (List.mem_cons_of_mem _ hy))

/-- C12. For a name that some entry has, `getPIDByName(name)` returns
`mode ++ pid` of the first entry of that name when that entry has a pid, and
its `mode` alone when it has none. -/
theorem getPIDByName_first_entry {V : Type} (PIDS : List (PidDefinition V))
    (e : PidDefinition V) (i : Nat) (name : Str)
    (hi : PIDS[i]? = some e) (hname : e.name = name)
    (hfirst : ∀ x ∈ PIDS.take i, x.name ≠ name) :
    (∀ p, e.pid = some p → getPIDByName PIDS name = some (e.mode ++ p)) ∧
      (e.pid = none → getPIDByName PIDS name = some e.mode) := by
  subst hname
  have h : getPIDByName PIDS e.name = some e.request := by
    conv_lhs => rw [split_at_index PIDS i e hi]
    exact getPIDByName_of_first _ _ e hfirst
  constructor
  · intro p hp
    rw [h]
    simp [PidDefinition.request, hp]
  · intro hp
    rw [h]
    simp [PidDefinition.request, hp]

theorem getPIDByName_first_entry_witness :
    (∀ p, vssEntry.pid = some p → getPIDByName samplePIDS "vss".toList = some (vssEntry.mode ++ p)) ∧
      (vssEntry.pid = none → getPIDByName samplePIDS "vss".toList = some vssEntry.mode) :=
  getPIDByName_first_entry samplePIDS vssEntry 2 "vss".toList (by rfl) (by rfl) (by decide)

/-- C16. No prompt yet: when `receivedData ++ chunk` contains no `>`, the
`data` handler emits no `dataReceived` event and sets `receivedData` to
`receivedData ++ chunk`. -/
theorem no_prompt_buffers {V : Type} (PIDS : List (PidDefinition V)) (r : Reader V) (data : Str)
    (h : '>' ∉ r.receivedData ++ data) :
    (onData PIDS r data).emitted = r.emitted ∧
      (onData PIDS r data).receivedData = r.receivedData ++ data := by
  rw [onData_of_no_prompt PIDS r data h]
  exact ⟨rfl, rfl⟩

theorem no_prompt_buffers_witness :
    (onData samplePIDS { receivedData := "010D\r".toList, emitted := [] } "\n41 0D".toList).emitted
        = [] ∧
      (onData samplePIDS { receivedData := "010D\r".toList, emitted := [] }
          "\n41 0D".toList).receivedData
        = "010D\r".toList ++ "\n41 0D".toList :=
  no_prompt_buffers samplePIDS { receivedData := "010D\r".toList, emitted := [] }
    "\n41 0D".toList (by decide)

/-- C19. Short reply matches a mode-only entry: when the table has an entry
without a pid, for a text other than `OK` and `NO DATA` with fewer than three
non-space characters `parseOBDCommand` returns a reply whose pid is unset and
whose name is the name of the first table entry that has no pid. -/
theorem short_reply_mode_only {V : Type} (PIDS : List (PidDefinition V)) (e : PidDefinition V)
    (i : Nat) (hexString : Str)
    (hsent : hexString ≠ "NO DATA".toList ∧ hexString ≠ "OK".toList)
    (hshort : (removeSpaces hexString).length < 3)
    (hi : PIDS[i]? = some e) (hpid : e.pid = none)
    (hfirst : ∀ x ∈ PIDS.take i, x.pid ≠ none) :
    (parseOBDCommand PIDS hexString).pid = none ∧
      (parseOBDCommand PIDS hexString).name = some e.name := by
  have h1 : (valueArray (removeSpaces hexString))[1]? = none :=
    List.getElem?_eq_none (by rw [valueArray_length]; omega)
  unfold parseOBDCommand
  rw [if_neg (by rintro (h | h); exact hsent.1 h; exact hsent.2 h)]
  simp only [h1]
  conv =>
    congr
    · rw [split_at_index PIDS i e hi]
    · rw [split_at_index PIDS i e hi]
  rw [lookupLoop_of_first _ _ e _ _ hfirst hpid]
  exact ⟨rfl, rfl⟩

theorem short_reply_mode_only_witness :
    (parseOBDCommand samplePIDS "4 ".toList).pid = none ∧
      (parseOBDCommand samplePIDS "4 ".toList).name = some "cleardtc".toList :=
  short_reply_mode_only samplePIDS
    { name := "cleardtc".toList, mode := "04".toList, pid := none, bytes := 0,
      convertToUseful := convertHex }
    3 "4 ".toList (by decide) (by decide) (by rfl) (by rfl) (by decide)

/-! ## One event per parsed segment -/

theorem processCommand_of_none {V : Type} (PIDS : List (PidDefinition V)) (currentLength : Int)
    (r : Reader V) (forString : Str) (h : framePayload forString currentLength = none) :
    processCommand PIDS currentLength r forString = r := by
  unfold processCommand
  rw [h]
  split <;> rfl

theorem foldl_processCommand_emitted {V : Type} (PIDS : List (PidDefinition V))
    (currentLength : Int) (segs : List Str) (r : Reader V) :
    (segs.foldl (processCommand PIDS currentLength) r).emitted
      = r.emitted ++ (segs.filterMap (fun seg => framePayload seg currentLength)).map
          (parseOBDCommand PIDS) := by
  induction segs generalizing r with
  | nil => simp
  | cons s rest ih =>
    rw [List.foldl_cons, ih]
    cases hs : framePayload s currentLength with
    | none =>
      rw [processCommand_of_none PIDS currentLength r s hs]
      simp [List.filterMap_cons, hs]
    | some payload =>
      rw [processCommand_of_payload PIDS currentLength r s payload hs]
      simp [List.filterMap_cons, hs]

theorem onData_emitted_of_prompt {V : Type} (PIDS : List (PidDefinition V)) (r : Reader V)
    (data : Str) (h : '>' ∈ r.receivedData ++ data) :
    (onData PIDS r data).emitted
      = r.emitted ++ ((split (r.receivedData ++ data) '>').filterMap
          (fun seg => framePayload seg ((r.receivedData ++ data).length : Int))).map
          (parseOBDCommand PIDS) := by
  rw [onData_of_prompt PIDS r data h, foldl_processCommand_emitted]

theorem splitAux_length_le (sep : Char) (s : Str) :
    (splitAux sep s).1.length ≤ s.length ∧ ∀ seg ∈ (splitAux sep s).2, seg.length ≤ s.length := by
  induction s with
  | nil => simp [splitAux]
  | cons c cs ih =>
    unfold splitAux
    by_cases hc : c = sep
    · simp only [if_pos hc, List.length_nil, List.length_cons, List.mem_cons]
      refine ⟨by omega, ?_⟩
      rintro seg (h | h)
      · rw [h]; have := ih.1; omega
      · have := ih.2 seg h; omega
    · simp only [if_neg hc, List.length_cons]
      refine ⟨by have := ih.1; omega, ?_⟩
      intro seg h
      have := ih.2 seg h
      omega

theorem length_le_of_mem_split (sep : Char) (s seg : Str) (h : seg ∈ split s sep) :
    seg.length ≤ s.length := by
  unfold split at h
  rcases List.mem_cons.mp h with h | h
  · rw [h]; exact (splitAux_length_le sep s).1
  · exact (splitAux_length_le sep s).2 seg h

theorem framePayload_single (p tail : Str) (l : Nat) (hl : p.length ≤ l)
    (hp : ¬ CRLF <:+: p) (htail : ¬ CRLF <:+: tail) :
    framePayload (p ++ CRLF ++ tail) (l : Int) = some (p.drop 1) := by
  unfold framePayload
  simp only
  rw [lastIndexOf_CRLF_append p tail htail, if_pos (by omega)]
  have h0 : substr (p ++ CRLF ++ tail) 0 (p.length : Int) = p := by
    have := substr_nat (p ++ CRLF ++ tail) 0 p.length
    rw [Nat.cast_zero] at this
    rw [this, List.drop_zero, List.append_assoc, List.take_left']
    rfl
  rw [h0, lastIndexOf_of_no_CRLF p hp]
  have h1 : ((-1 : Int) + 2) = ((1 : Nat) : Int) := by norm_num
  rw [h1, substr_nat, List.take_of_length_le (by simp; omega)]

theorem filterMap_framePayload_length (segs : List Str) (currentLength : Int) :
    (segs.filterMap (fun seg => framePayload seg currentLength)).length
      = (segs.filter (fun seg => decide (CRLF <:+: seg))).length := by
  induction segs with
  | nil => rfl
  | cons s rest ih =>
    by_cases hs : CRLF <:+: s
    · obtain ⟨payload, hp⟩ :=
        Option.isSome_iff_exists.mp ((framePayload_isSome_iff s currentLength).mpr hs)
      simp [List.filterMap_cons, hp, hs, ih]
    · have hn : framePayload s currentLength = none := by
        have := (framePayload_isSome_iff s currentLength).not.mpr hs
        simpa using this
      simp [List.filterMap_cons, hn, hs, ih]

theorem mem_emitted_of_segment {V : Type} (PIDS : List (PidDefinition V)) (r : Reader V)
    (data seg payload : Str) (hprompt : '>' ∈ r.receivedData ++ data)
    (hseg : seg ∈ split (r.receivedData ++ data) '>')
    (hp : framePayload seg ((r.receivedData ++ data).length : Int) = some payload) :
    parseOBDCommand PIDS payload ∈ (onData PIDS r data).emitted := by
  rw [onData_emitted_of_prompt PIDS r data hprompt]
  apply List.mem_append_right
  apply List.mem_map_of_mem
  exact List.mem_filterMap.mpr ⟨seg, hseg, hp⟩

/-- C13. Payload extraction: for a segment `echo ++ CR-LF ++ payload ++ CR-LF
++ tail` of the split on `>`, where payload and tail contain no CR-LF and no
`>`, the `data` handler calls `parseOBDCommand` with exactly `payload` and
emits its result as a `dataReceived` event. -/
theorem payload_extraction {V : Type} (PIDS : List (PidDefinition V)) (r : Reader V)
    (data echo payload tail : Str) (hprompt : '>' ∈ r.receivedData ++ data)
    (hseg : echo ++ CRLF ++ payload ++ CRLF ++ tail ∈ split (r.receivedData ++ data) '>')
    (hpayload : ¬ CRLF <:+: payload ∧ '>' ∉ payload)
    (htail : ¬ CRLF <:+: tail ∧ '>' ∉ tail) :
    framePayload (echo ++ CRLF ++ payload ++ CRLF ++ tail)
        ((r.receivedData ++ data).length : Int) = some payload ∧
      parseOBDCommand PIDS payload ∈ (onData PIDS r data).emitted := by
  have hlen := length_le_of_mem_split '>' _ _ hseg
  have hp := framePayload_frame echo payload tail (r.receivedData ++ data).length
    (by simp only [List.length_append] at hlen ⊢; omega) hpayload.1 htail.1
  exact ⟨hp, mem_emitted_of_segment PIDS r data _ payload hprompt hseg hp⟩

theorem payload_extraction_witness :
    framePayload ("010D".toList ++ CRLF ++ "41 0D 32".toList ++ CRLF ++ "\r".toList)
        (((Reader.init : Reader (Option Nat)).receivedData ++ "010D\r\n41 0D 32\r\n\r>".toList).length : Int)
        = some "41 0D 32".toList ∧
      parseOBDCommand samplePIDS "41 0D 32".toList
        ∈ (onData samplePIDS Reader.init "010D\r\n41 0D 32\r\n\r>".toList).emitted :=
  payload_extraction samplePIDS Reader.init "010D\r\n41 0D 32\r\n\r>".toList "010D".toList
    "41 0D 32".toList "\r".toList (by decide) (by decide) (by decide) (by decide)

/-- C18. Single-terminator segment: for a segment `p ++ CR-LF ++ tail` of the
split on `>`, where `p` and `tail` contain no CR-LF and no `>`, the `data`
handler passes to `parseOBDCommand` the string `p` with its first character
removed, which for a non-empty `p` is not `p` itself, and emits the result. -/
theorem single_terminator_segment {V : Type} (PIDS : List (PidDefinition V)) (r : Reader V)
    (data p tail : Str) (hprompt : '>' ∈ r.receivedData ++ data)
    (hseg : p ++ CRLF ++ tail ∈ split (r.receivedData ++ data) '>')
    (hp : ¬ CRLF <:+: p ∧ '>' ∉ p) (htail : ¬ CRLF <:+: tail ∧ '>' ∉ tail) :
    framePayload (p ++ CRLF ++ tail) ((r.receivedData ++ data).length : Int)
        = some (p.drop 1) ∧
      parseOBDCommand PIDS (p.drop 1) ∈ (onData PIDS r data).emitted ∧
      (p ≠ [] → p.drop 1 ≠ p) := by
  have hlen := length_le_of_mem_split '>' _ _ hseg
  have hfp := framePayload_single p tail (r.receivedData ++ data).length
    (by simp only [List.length_append] at hlen ⊢; omega) hp.1 htail.1
  refine ⟨hfp, mem_emitted_of_segment PIDS r data _ _ hprompt hseg hfp, ?_⟩
  intro hne heq
  have := congrArg List.length heq
  cases p with
  | nil => exact hne rfl
  | cons c cs => simp at this

theorem single_terminator_segment_witness :
    framePayload ("41 0D 32".toList ++ CRLF ++ [])
        (((Reader.init : Reader (Option Nat)).receivedData ++ "41 0D 32\r\n>".toList).length : Int)
        = some ("41 0D 32".toList.drop 1) ∧
      parseOBDCommand samplePIDS ("41 0D 32".toList.drop 1)
        ∈ (onData samplePIDS Reader.init "41 0D 32\r\n>".toList).emitted ∧
      ("41 0D 32".toList ≠ [] → "41 0D 32".toList.drop 1 ≠ "41 0D 32".toList) :=
  single_terminator_segment samplePIDS Reader.init "41 0D 32\r\n>".toList "41 0D 32".toList []
    (by decide) (by decide) (by decide) (by decide)

/-- C17. One event per parsed frame, in order: when `receivedData ++ chunk`
contains `>`, the events the `data` handler emits are the replies to the
payloads of its segments, in segment order, one for each segment that
contains a CR-LF; a segment without a CR-LF has no payload, emits nothing, and
the segments after it are still processed. -/
theorem one_event_per_segment {V : Type} (PIDS : List (PidDefinition V)) (r : Reader V)
    (data : Str) (hprompt : '>' ∈ r.receivedData ++ data) :
    (onData PIDS r data).emitted
        = r.emitted ++ ((split (r.receivedData ++ data) '>').filterMap
            (fun seg => framePayload seg ((r.receivedData ++ data).length : Int))).map
            (parseOBDCommand PIDS) ∧
      (∀ seg, (framePayload seg ((r.receivedData ++ data).length : Int)).isSome = true
          ↔ CRLF <:+: seg) ∧
      (onData PIDS r data).emitted.length
        = r.emitted.length
          + ((split (r.receivedData ++ data) '>').filter
              (fun seg => decide (CRLF <:+: seg))).length := by
  have h := onData_emitted_of_prompt PIDS r data hprompt
  refine ⟨h, fun seg => framePayload_isSome_iff seg _, ?_⟩
  rw [h, List.length_append, List.length_map, filterMap_framePayload_length]

theorem one_event_per_segment_witness :
    (onData samplePIDS Reader.init "010D\r\n41 0D 32\r\n>?>0100\r\n41 0C 1A 2B\r\n>".toList).emitted
        = (Reader.init : Reader (Option Nat)).emitted ++
          ((split ((Reader.init : Reader (Option Nat)).receivedData
              ++ "010D\r\n41 0D 32\r\n>?>0100\r\n41 0C 1A 2B\r\n>".toList) '>').filterMap
            (fun seg => framePayload seg
              (((Reader.init : Reader (Option Nat)).receivedData
                ++ "010D\r\n41 0D 32\r\n>?>0100\r\n41 0C 1A 2B\r\n>".toList).length : Int))).map
            (parseOBDCommand samplePIDS) ∧
      (∀ seg, (framePayload seg
            (((Reader.init : Reader (Option Nat)).receivedData
              ++ "010D\r\n41 0D 32\r\n>?>0100\r\n41 0C 1A 2B\r\n>".toList).length : Int)).isSome
            = true ↔ CRLF <:+: seg) ∧
      (onData samplePIDS Reader.init
          "010D\r\n41 0D 32\r\n>?>0100\r\n41 0C 1A 2B\r\n>".toList).emitted.length
        = (Reader.init : Reader (Option Nat)).emitted.length
          + ((split ((Reader.init : Reader (Option Nat)).receivedData
              ++ "010D\r\n41 0D 32\r\n>?>0100\r\n41 0C 1A 2B\r\n>".toList) '>').filter
              (fun seg => decide (CRLF <:+: seg))).length :=
  one_event_per_segment samplePIDS Reader.init
    "010D\r\n41 0D 32\r\n>?>0100\r\n41 0C 1A 2B\r\n>".toList (by decide)

/-! ## Decoder found case and poll write sequence -/

theorem convertedValue_of_enough {V : Type} (e : PidDefinition V) (va : List Str)
    (hbytes : e.bytes = 1 ∨ e.bytes = 2 ∨ e.bytes = 4 ∨ e.bytes = 8)
    (hlen : e.bytes + 2 ≤ va.length) :
    convertedValue e va
      = some (.converted (e.convertToUseful (((va.drop 2).take e.bytes).map some))) := by
  unfold convertedValue
  rcases hbytes with h | h | h | h
  · rw [h] at hlen ⊢
    match va, hlen with
    | _ :: _ :: _ :: _, _ => simp
  · rw [h] at hlen ⊢
    match va, hlen with
    | _ :: _ :: _ :: _ :: _, _ => simp
  · rw [h] at hlen ⊢
    match va, hlen with
    | _ :: _ :: _ :: _ :: _ :: _ :: _, _ => simp
  · rw [h] at hlen ⊢
    match va, hlen with
    | _ :: _ :: _ :: _ :: _ :: _ :: _ :: _ :: _ :: _ :: _, _ => simp

/-- C14. Decoder found case: for a text other than `OK` and `NO DATA` whose
`Byte[1]` (after the spaces are removed) is the pid of a table entry, the
matched entry being the first such entry `e`, with byte count `n` in
{1,2,4,8}, and that has at least `n` further bytes, `parseOBDCommand` returns a
reply whose name is `e.name` and whose value is `e.convertToUseful` applied to
exactly `Byte[2] .. Byte[n+1]`, in that order. -/
theorem decoder_found {V : Type} (PIDS : List (PidDefinition V)) (e : PidDefinition V)
    (i : Nat) (hexString byte1 : Str)
    (hsent : hexString ≠ "NO DATA".toList ∧ hexString ≠ "OK".toList)
    (h1 : (valueArray (removeSpaces hexString))[1]? = some byte1)
    (hi : PIDS[i]? = some e) (hpid : e.pid = some byte1)
    (hfirst : ∀ x ∈ PIDS.take i, x.pid ≠ some byte1)
    (hbytes : e.bytes = 1 ∨ e.bytes = 2 ∨ e.bytes = 4 ∨ e.bytes = 8)
    (hlen : e.bytes + 2 ≤ (valueArray (removeSpaces hexString)).length) :
    (parseOBDCommand PIDS hexString).name = some e.name ∧
      (parseOBDCommand PIDS hexString).value
        = some (.converted (e.convertToUseful
            ((((valueArray (removeSpaces hexString)).drop 2).take e.bytes).map some))) := by
  have hparse : parseOBDCommand PIDS hexString
      = { value := convertedValue e (valueArray (removeSpaces hexString)),
          name := some e.name,
          mode := (valueArray (removeSpaces hexString))[0]?,
          pid := some byte1 } := by
    unfold parseOBDCommand
    rw [if_neg (by rintro (h | h); exact hsent.1 h; exact hsent.2 h)]
    simp only [h1]
    conv_lhs => rw [split_at_index PIDS i e hi]
    rw [lookupLoop_of_first _ _ e _ _ hfirst hpid]
  rw [hparse]
  exact ⟨rfl, convertedValue_of_enough e _ hbytes hlen⟩

theorem decoder_found_witness :
    (parseOBDCommand samplePIDS "41 0D 32".toList).name = some vssEntry.name ∧
      (parseOBDCommand samplePIDS "41 0D 32".toList).value
        = some (.converted (vssEntry.convertToUseful
            ((((valueArray (removeSpaces "41 0D 32".toList)).drop 2).take vssEntry.bytes).map
              some))) :=
  decoder_found samplePIDS vssEntry 2 "41 0D 32".toList "0D".toList
    (by decide) (by decide) (by rfl) (by rfl) (by decide) (by decide) (by decide)

theorem run_addPollers {V : Type} (PIDS : List (PidDefinition V)) (names : List Str)
    (s : Scheduler) :
    (Scheduler.run PIDS s (names.map Call.addPoller)).activePollers
      = s.activePollers ++ names.map (getPIDByName PIDS) := by
  induction names generalizing s with
  | nil => simp [Scheduler.run]
  | cons n rest ih =>
    unfold Scheduler.run at ih ⊢
    rw [List.map_cons, List.foldl_cons, ih]
    simp [Scheduler.step, addPoller]

/-- C15. Poll write sequence: starting from an empty `activePollers`, after
`addPoller(n1)`, ..., `addPoller(nk)` with known names (repeats allowed), one
poll tick (`writePollers`) writes to the sink exactly the `k` strings
`getPIDByName(n1) ++ CR`, ..., `getPIDByName(nk) ++ CR`, in insertion order. -/
theorem poll_write_sequence {V : Type} (PIDS : List (PidDefinition V)) (names cmds : List Str)
    (hknown : names.map (getPIDByName PIDS) = cmds.map some) :
    writePollers (Scheduler.run PIDS Scheduler.init (names.map Call.addPoller)).activePollers
      = cmds.map (fun cmd => cmd ++ ['\r']) := by
  rw [run_addPollers, hknown]
  simp [Scheduler.init, writePollers, write, toStr]

theorem poll_write_sequence_witness :
    writePollers (Scheduler.run samplePIDS Scheduler.init
        (["vss".toList, "runtm".toList, "vss".toList].map Call.addPoller)).activePollers
      = ["010D".toList, "011F".toList, "010D".toList].map (fun cmd => cmd ++ ['\r']) :=
  poll_write_sequence samplePIDS ["vss".toList, "runtm".toList, "vss".toList]
    ["010D".toList, "011F".toList, "010D".toList] (by decide)

end OBD
